import Mathlib

/-!
Verification of the Hall-effect electron simulation core
(`src/widgets/hall-effect-visualization/lib/electron-simulation.ts`).

The per-frame update `ElectronSimulation.updateElectrons`, the batch
initializer `initializeElectrons`, the freeze-transition helper
`resetElectronPositions` and `dispose` are embedded shallowly:

* machine numbers become rationals (`ℚ`); the special JavaScript value
  `NaN` that the guard `Math.max(0, v || 0)` must absorb is represented
  by the explicit sum type `JSNum`;
* each call to `Math.random()` reads the next element of an explicit
  stream `R : ℕ → ℚ` of values in `[0, 1)`, threaded by a cursor in the
  exact order the source draws them (3 per electron at initialization
  and at reset; in a flowing frame 1 jitter draw per electron plus 2
  more when that electron wraps);
* the mutable instance fields that carry simulation state
  (`electrons`, `lastCurrentVal`, `movementEnabled`, and the six
  rendering resources that are allocated and nulled together) become an
  explicit `SimState` record;
* cosmetic output (instance matrices, pulsation scale via `Math.sin`,
  material emissive colour) is renderer-owned floating-point display
  state that never feeds back into positions or velocities, and is not
  modelled; the `trailPoints` field is initialized to `[]` and never
  touched again, and is likewise omitted;
* the update additionally reports an `UpdateTrace` recording whether
  the freeze side effect (`resetElectronPositions`) ran in this call and
  which electrons wrapped across the left drift boundary — these are
  direct observations of which source branches executed;
* the source bodies contain no `throw`, so the exception-aware wrappers
  `updateElectronsRun` / `disposeRun` return `.ok` on every path.

All call sites in the repository pass the simulation's own electron
array back into `updateElectrons`, so the embedding lets the update act
on the state's electron list.
-/

namespace HallSim

/-- Embeds `THREE.Vector3` (only the components and the two operations the
simulation uses). -/
structure Vec3 where
  x : ℚ
  y : ℚ
  z : ℚ
deriving DecidableEq, Repr

/-- The zero vector. -/
def Vec3.zero : Vec3 := ⟨0, 0, 0⟩

/-- `THREE.Vector3.crossVectors a b`. -/
def Vec3.cross (a b : Vec3) : Vec3 :=
  ⟨a.y * b.z - a.z * b.y, a.z * b.x - a.x * b.z, a.x * b.y - a.y * b.x⟩

/-- `THREE.Vector3.multiplyScalar c v`. -/
def Vec3.smul (c : ℚ) (v : Vec3) : Vec3 := ⟨c * v.x, c * v.y, c * v.z⟩

/-- `THREE.MathUtils.clamp value lo hi = Math.max(lo, Math.min(hi, value))`. -/
def clamp (v lo hi : ℚ) : ℚ := max lo (min hi v)

/-- One electron of the batch (source interface `Electron`, lines 3-11);
`trailPoints` is created empty and never used, so it is omitted. -/
structure Electron where
  position : Vec3
  velocity : Vec3
  id : ℕ
  initialPosition : Vec3
deriving DecidableEq, Repr

instance : Inhabited Electron :=
  ⟨{ position := Vec3.zero, velocity := Vec3.zero, id := 0, initialPosition := Vec3.zero }⟩

/-- A JavaScript number input: an ordinary (rational) value or `NaN`. -/
inductive JSNum where
  | num (q : ℚ)
  | nan
deriving DecidableEq, Repr

/-- The entry guard `Math.max(0, v || 0)` (source lines 155-156): `NaN` and
`0` are falsy so `v || 0` maps them to `0`; then the negative range is
clamped away by `Math.max`. -/
def sanitize : JSNum → ℚ
  | .nan => 0
  | .num q => max 0 q

/-- A stream of `Math.random()` results. -/
def RStream : Type := ℕ → ℚ

/-- Every value `Math.random()` returns lies in `[0, 1)`. -/
def StreamOK (R : RStream) : Prop := ∀ n, 0 ≤ R n ∧ R n < 1

/-- The mutable fields of `ElectronSimulation` that carry simulation state.
The six rendering-resource fields (`electronsMesh`, `electronsGlow`, the two
geometries and the two materials) are allocated together by
`initializeElectrons` and nulled together by `dispose`, so their joint
presence is one flag. -/
structure SimState where
  electrons : List Electron
  lastCurrentVal : ℚ
  movementEnabled : Bool
  meshPresent : Bool
deriving DecidableEq, Repr

/-- A freshly constructed `ElectronSimulation` (field initializers,
source lines 14-26). -/
def freshSim : SimState :=
  { electrons := [], lastCurrentVal := 0, movementEnabled := true, meshPresent := false }

/-- One electron built by `initializeElectrons` (source lines 78-104):
position drawn uniformly from `[-2,2) × [-0.1,0.1) × [-0.2,0.2)`, base
velocity `(-0.5, 0, 0)`, `initialPosition` a copy of `position`. -/
def initElectron (R : RStream) (i : ℕ) : Electron :=
  let pos : Vec3 := ⟨R (3 * i) * 4 - 2, R (3 * i + 1) * (1/5) - 1/10, R (3 * i + 2) * (2/5) - 1/5⟩
  { position := pos, velocity := ⟨-(1/2), 0, 0⟩, id := i, initialPosition := pos }

/-- `ElectronSimulation.initializeElectrons` (source lines 32-114): disposes
the previous batch, allocates fresh rendering resources, builds `count`
electrons and re-enables movement. `lastCurrentVal` is not touched. -/
def initializeElectrons (s : SimState) (count : ℕ) (R : RStream) : SimState :=
  { electrons := (List.range count).map (initElectron R)
    lastCurrentVal := s.lastCurrentVal
    movementEnabled := true
    meshPresent := true }

/-- One electron position resample in `resetElectronPositions`
(source lines 119-123), drawing three stream values starting at cursor `k`. -/
def resetElectron (R : RStream) (k : ℕ) (e : Electron) : Electron :=
  { e with position := ⟨R k * 4 - 2, R (k + 1) * (1/5) - 1/10, R (k + 2) * (2/5) - 1/5⟩ }

/-- `ElectronSimulation.resetElectronPositions` body over the whole batch
(source lines 116-140), threading the random cursor; the method also sets
`movementEnabled := false`, which `updateCore` does at the call site. -/
def resetAll (R : RStream) : List Electron → ℕ → List Electron
  | [], _ => []
  | e :: es, k => resetElectron R k e :: resetAll R es (k + 3)

/-- `showEdgeAccumulation` (source line 212): significant field and current. -/
def accumActive (magneticField current : ℚ) : Bool :=
  decide (10 < magneticField) && decide (1 < current)

/-- The widened lateral clamp limit under accumulation (source line 276). -/
def zLimitOf (magneticField : ℚ) : ℚ := 2/5 + magneticField / 100 * (1/10)

/-- Physics phase of the per-electron flowing update (source lines 222-251):
set `velocity.x = -(0.5 * current / 5)`, compute the Lorentz force
`-0.2 * (v × B)` with `B = (0,-1,0) * (magneticField / 50)`, advance `x` by
`velocity.x * dt * 1.5`, deflect `z` by `force.z * dt * 1.2` when the field
exceeds `0.1`, and jitter `y` by `(r1 - 0.5) * 0.0001`. -/
def flowStepPhys (current magneticField dt r1 : ℚ) (e : Electron) : Electron :=
  let baseVelocity := (1/2) * (current / 5)
  let vel : Vec3 := { e.velocity with x := -baseVelocity }
  let B : Vec3 := Vec3.smul (magneticField / 50) ⟨0, -1, 0⟩
  let force := Vec3.smul (-(1/5)) (Vec3.cross vel B)
  let x1 := e.position.x + vel.x * dt * (3/2)
  let z1 := if 1/10 < magneticField then e.position.z + force.z * dt * (6/5) else e.position.z
  let y1 := e.position.y + (r1 - 1/2) * (1/10000)
  { e with velocity := vel, position := ⟨x1, y1, z1⟩ }

/-- Boundary phase of the per-electron flowing update (source lines
254-280): wrap from the left boundary back to `x = 2.5` with resampled
`y`/`z` (the `z` resample biased low under accumulation), then clamp `y`
to `[-0.2, 0.2]` and `z` to the active lateral limit. -/
def flowStepBound (magneticField : ℚ) (accum : Bool) (r2 r3 : ℚ) (e : Electron) : Electron :=
  let wrapped := e.position.x < -(5/2)
  let x2 := if wrapped then 5/2 else e.position.x
  let y2 := if wrapped then r2 * (1/5) - 1/10 else e.position.y
  let z2 := if wrapped then (if accum then r3 * (1/5) - 2/5 else r3 * (2/5) - 1/5)
            else e.position.z
  let y3 := clamp y2 (-(1/5)) (1/5)
  let z3 := if accum then clamp z2 (-(zLimitOf magneticField)) (zLimitOf magneticField)
            else clamp z2 (-(2/5)) (2/5)
  { e with position := ⟨x2, y3, z3⟩ }

/-- The flowing-mode `electrons.forEach` loop (source lines 221-293),
threading the random cursor `k`: every electron draws one jitter value, and
an electron that wraps draws two more. Returns the updated electrons
together with each electron's wrap flag. -/
def flowAll (current magneticField dt : ℚ) (accum : Bool) (R : RStream) :
    List Electron → ℕ → List Electron × List Bool
  | [], _ => ([], [])
  | e :: es, k =>
    let e1 := flowStepPhys current magneticField dt (R k) e
    if e1.position.x < -(5/2) then
      let e2 := flowStepBound magneticField accum (R (k + 1)) (R (k + 2)) e1
      let rest := flowAll current magneticField dt accum R es (k + 3)
      (e2 :: rest.1, true :: rest.2)
    else
      let e2 := flowStepBound magneticField accum 0 0 e1
      let rest := flowAll current magneticField dt accum R es (k + 1)
      (e2 :: rest.1, false :: rest.2)

/-- Observable branch record of one `updateElectrons` call: whether the
freeze side effect (`resetElectronPositions`) ran, and which electrons
wrapped across the left drift boundary (all-`false` outside flowing mode). -/
structure UpdateTrace where
  didReset : Bool
  wrapped : List Bool
deriving DecidableEq, Repr

/-- The arguments of one `updateElectrons` call. -/
structure CallInput where
  deltaTime : ℚ
  currentVal : JSNum
  magneticFieldVal : JSNum
  time : ℚ
  R : RStream

/-- `ElectronSimulation.updateElectrons` after input sanitization (source
lines 157-298). `dtRaw` is the raw `deltaTime`, capped at `0.033`;
`current` and `magneticField` are already sanitized. The `time` argument
only drives the cosmetic `Math.sin` pulsation and is not modelled. Source
line 208 (`if (!this.movementEnabled) return`) is unreachable: it is
preceded by line 203, which re-enables movement whenever `current > 0.1`,
and the flowing region is only entered when `current > 0.1`. -/
def updateCore (s : SimState) (dtRaw current magneticField : ℚ) (R : RStream) :
    SimState × UpdateTrace :=
  let dt := min dtRaw (33/1000)
  let toZero := decide (1/10 < s.lastCurrentVal) && decide (current ≤ 1/10)
  let fromZero := decide (s.lastCurrentVal ≤ 1/10) && decide (1/10 < current)
  let s1 := { s with lastCurrentVal := current }
  let s2 :=
    if toZero then
      { s1 with electrons := resetAll R s1.electrons 0, movementEnabled := false }
    else if fromZero then { s1 with movementEnabled := true }
    else s1
  if current ≤ 1/10 then
    (s2, { didReset := toZero, wrapped := s2.electrons.map fun _ => false })
  else
    let s3 := if s2.movementEnabled then s2 else { s2 with movementEnabled := true }
    let accum := accumActive magneticField current
    let p := flowAll current magneticField dt accum R s3.electrons 0
    ({ s3 with electrons := p.1 }, { didReset := toZero, wrapped := p.2 })

/-- `ElectronSimulation.updateElectrons` (source lines 147-298): sanitize
the two control inputs at entry, then run the core. -/
def updateElectrons (s : SimState) (inp : CallInput) : SimState × UpdateTrace :=
  updateCore s inp.deltaTime (sanitize inp.currentVal) (sanitize inp.magneticFieldVal) inp.R

/-- A sequence of per-frame calls, collecting each call's trace. -/
def runUpdates : SimState → List CallInput → SimState × List UpdateTrace
  | s, [] => (s, [])
  | s, inp :: rest =>
    let p := updateElectrons s inp
    let q := runUpdates p.1 rest
    (q.1, p.2 :: q.2)

/-- `ElectronSimulation.dispose` (source lines 300-352): every resource
release is guarded by a null check, every resource field is set to `null`,
and the electron list is emptied. -/
def dispose (s : SimState) : SimState :=
  { s with meshPresent := false, electrons := [] }

/-- Exception-aware semantics of `updateElectrons`: the source body
contains no `throw`, so every call returns normally. -/
def updateElectronsRun (s : SimState) (inp : CallInput) :
    Except String (SimState × UpdateTrace) :=
  .ok (updateElectrons s inp)

/-- Exception-aware semantics of `dispose`: the source body contains no
`throw`, so every call returns normally. -/
def disposeRun (s : SimState) : Except String SimState := .ok (dispose s)

/-- The base simulation volume of the spec's data-model invariant:
`[-2.5, 2.5]` on the drift axis, `[-0.2, 0.2]` vertically, `[-0.4, 0.4]`
laterally. -/
def inVolume (e : Electron) : Prop :=
  |e.position.x| ≤ 5/2 ∧ |e.position.y| ≤ 1/5 ∧ |e.position.z| ≤ 2/5

/-- The projection of an electron that `updateElectrons` never writes:
identity, initial position, and the two non-drift velocity components. -/
def frameKept (e : Electron) : ℕ × Vec3 × ℚ × ℚ :=
  (e.id, e.initialPosition, e.velocity.y, e.velocity.z)

/-- Number of calls in a run whose freeze side effect fired. -/
def resetCount (s : SimState) (inps : List CallInput) : ℕ :=
  ((runUpdates s inps).2.filter (fun t => t.didReset)).length

/-- A random stream that always answers `0.5`. -/
def streamHalf : RStream := fun _ => 1/2

/-- One electron initialized with `streamHalf`: position `(0,0,0)`. -/
def sInit1 : SimState := initializeElectrons freshSim 1 streamHalf

/-- A frame at current 5 and field 0, delta 16 ms. -/
def callFlow : CallInput :=
  { deltaTime := 2/125, currentVal := .num 5, magneticFieldVal := .num 0, time := 0,
    R := streamHalf }

/-- A frame at current 0 (freeze side of the threshold). -/
def callFreeze : CallInput :=
  { deltaTime := 2/125, currentVal := .num 0, magneticFieldVal := .num 0, time := 0,
    R := streamHalf }

/-- The state after one flowing frame on `sInit1`. -/
def sFlow : SimState := (updateElectrons sInit1 callFlow).1

/-- Initialization stream putting the single electron at `(-2, 0, 0)`. -/
def c6InitStream : RStream := fun n => if n = 0 then 0 else 1/2

/-- One electron at `(-2, 0, 0)` with lateral coordinate exactly `0`. -/
def c6Init : SimState := initializeElectrons freshSim 1 c6InitStream

/-- A frame at current 5, field 0, delta exactly the 33 ms cap, with an
all-zero random stream. -/
def c6Call : CallInput :=
  { deltaTime := 33/1000, currentVal := .num 5, magneticFieldVal := .num 0, time := 0,
    R := fun _ => 0 }

/-! ### Basic lemmas about the primitive operations -/

theorem sanitize_nonneg (v : JSNum) : 0 ≤ sanitize v := by
  cases v <;> simp [sanitize]

theorem sanitize_of_nonpos {q : ℚ} (h : q ≤ 0) : sanitize (.num q) = 0 := by
  simp [sanitize, max_eq_left h]

theorem abs_clamp_le {v hi : ℚ} (h : 0 ≤ hi) : |clamp v (-hi) hi| ≤ hi := by
  rw [abs_le]
  constructor
  · exact le_max_left _ _
  · exact max_le (by linarith) (min_le_left _ _)

theorem clamp_eq_self {v hi : ℚ} (h : |v| ≤ hi) : clamp v (-hi) hi = v := by
  rw [abs_le] at h
  rw [clamp, min_eq_right h.2, max_eq_right h.1]

theorem streamHalf_ok : StreamOK streamHalf := by
  intro n
  constructor <;> norm_num [streamHalf]

/-! ### Branch lemmas for `updateCore` -/

theorem updateCore_frozen (s : SimState) (dtRaw c mf : ℚ) (R : RStream)
    (hc : c ≤ 1/10) (hlast : s.lastCurrentVal ≤ 1/10) :
    updateCore s dtRaw c mf R =
      ({ s with lastCurrentVal := c },
       { didReset := false, wrapped := s.electrons.map fun _ => false }) := by
  have e1 : decide (1/10 < s.lastCurrentVal) = false := decide_eq_false (not_lt.2 hlast)
  have e2 : decide ((1:ℚ)/10 < c) = false := decide_eq_false (not_lt.2 hc)
  simp only [updateCore, e1, e2, Bool.false_and, Bool.and_false, if_pos hc,
    Bool.false_eq_true, if_false]

theorem updateCore_reset (s : SimState) (dtRaw c mf : ℚ) (R : RStream)
    (hc : c ≤ 1/10) (hlast : 1/10 < s.lastCurrentVal) :
    updateCore s dtRaw c mf R =
      ({ s with electrons := resetAll R s.electrons 0, lastCurrentVal := c,
                movementEnabled := false },
       { didReset := true, wrapped := (resetAll R s.electrons 0).map fun _ => false }) := by
  have e1 : decide ((1:ℚ)/10 < s.lastCurrentVal) = true := decide_eq_true hlast
  have e2 : decide (c ≤ (1:ℚ)/10) = true := decide_eq_true hc
  simp only [updateCore, e1, e2, Bool.true_and, Bool.and_true, if_pos hc, if_true]

theorem updateCore_flowing (s : SimState) (dtRaw c mf : ℚ) (R : RStream)
    (hc : 1/10 < c) :
    updateCore s dtRaw c mf R =
      ({ s with
          electrons :=
            (flowAll c mf (min dtRaw (33/1000)) (accumActive mf c) R s.electrons 0).1,
          lastCurrentVal := c, movementEnabled := true },
       { didReset := false,
         wrapped :=
           (flowAll c mf (min dtRaw (33/1000)) (accumActive mf c) R s.electrons 0).2 }) := by
  have h2 : ¬(c ≤ 1/10) := not_le.2 hc
  have e2 : decide (c ≤ (1:ℚ)/10) = false := decide_eq_false h2
  have e3 : decide ((1:ℚ)/10 < c) = true := decide_eq_true hc
  by_cases hl : s.lastCurrentVal ≤ 1/10
  · have e1 : decide ((1:ℚ)/10 < s.lastCurrentVal) = false := decide_eq_false (not_lt.2 hl)
    have e4 : decide (s.lastCurrentVal ≤ (1:ℚ)/10) = true := decide_eq_true hl
    simp only [updateCore, e1, e2, e3, e4, Bool.false_and, Bool.and_false, Bool.true_and,
      Bool.and_true, if_neg h2, Bool.false_eq_true, if_false, if_true]
  · have e1 : decide ((1:ℚ)/10 < s.lastCurrentVal) = true := decide_eq_true (not_le.1 hl)
    have e4 : decide (s.lastCurrentVal ≤ (1:ℚ)/10) = false := decide_eq_false hl
    cases hm : s.movementEnabled <;>
      simp only [updateCore, e1, e2, e3, e4, Bool.false_and, Bool.and_false, Bool.true_and,
        Bool.and_true, if_neg h2, Bool.false_eq_true, if_false, if_true, hm]


/-! ### Structure of the flowing loop -/

theorem flowStepPhys_velocity (c mf dt r1 : ℚ) (e : Electron) :
    (flowStepPhys c mf dt r1 e).velocity = ⟨-((1/2) * (c / 5)), e.velocity.y, e.velocity.z⟩ :=
  rfl

theorem flowStepPhys_x (c mf dt r1 : ℚ) (e : Electron) :
    (flowStepPhys c mf dt r1 e).position.x
      = e.position.x + -((1/2) * (c / 5)) * dt * (3/2) := rfl

theorem flowStepPhys_z_of_zero_field (c dt r1 : ℚ) (e : Electron) :
    (flowStepPhys c 0 dt r1 e).position.z = e.position.z := by
  simp [flowStepPhys]

theorem flowStepPhys_frameKept (c mf dt r1 : ℚ) (e : Electron) :
    frameKept (flowStepPhys c mf dt r1 e) = frameKept e := rfl

theorem flowStepBound_velocity (mf : ℚ) (accum : Bool) (r2 r3 : ℚ) (e : Electron) :
    (flowStepBound mf accum r2 r3 e).velocity = e.velocity := rfl

theorem flowStepBound_frameKept (mf : ℚ) (accum : Bool) (r2 r3 : ℚ) (e : Electron) :
    frameKept (flowStepBound mf accum r2 r3 e) = frameKept e := rfl

theorem flowAll_length (c mf dt : ℚ) (accum : Bool) (R : RStream) :
    ∀ (es : List Electron) (k : ℕ), (flowAll c mf dt accum R es k).1.length = es.length := by
  intro es
  induction es with
  | nil => intro k; rfl
  | cons e es ih =>
    intro k
    by_cases hw : (flowStepPhys c mf dt (R k) e).position.x < -(5/2) <;>
      simp [flowAll, hw, ih]

theorem flowAll_map_frameKept (c mf dt : ℚ) (accum : Bool) (R : RStream) :
    ∀ (es : List Electron) (k : ℕ),
      (flowAll c mf dt accum R es k).1.map frameKept = es.map frameKept := by
  intro es
  induction es with
  | nil => intro k; rfl
  | cons e es ih =>
    intro k
    by_cases hw : (flowStepPhys c mf dt (R k) e).position.x < -(5/2) <;>
      simp [flowAll, hw, ih, flowStepBound_frameKept, flowStepPhys_frameKept]

theorem flowAll_velocity_x (c mf dt : ℚ) (accum : Bool) (R : RStream) :
    ∀ (es : List Electron) (k : ℕ),
      ∀ e₁ ∈ (flowAll c mf dt accum R es k).1, e₁.velocity.x = -((1/2) * (c / 5)) := by
  intro es
  induction es with
  | nil => intro k e₁ h; simp [flowAll] at h
  | cons e es ih =>
    intro k e₁ h
    by_cases hw : (flowStepPhys c mf dt (R k) e).position.x < -(5/2) <;>
      simp only [flowAll, hw, if_pos, if_neg, if_true, if_false, List.mem_cons] at h <;>
      rcases h with h | h
    · rw [h, flowStepBound_velocity, flowStepPhys_velocity]
    · exact ih _ _ h
    · rw [h, flowStepBound_velocity, flowStepPhys_velocity]
    · exact ih _ _ h

theorem resetAll_length (R : RStream) :
    ∀ (es : List Electron) (k : ℕ), (resetAll R es k).length = es.length := by
  intro es
  induction es with
  | nil => intro k; rfl
  | cons e es ih => intro k; simp [resetAll, ih]

theorem resetElectron_frameKept (R : RStream) (k : ℕ) (e : Electron) :
    frameKept (resetElectron R k e) = frameKept e := rfl

theorem resetElectron_velocity (R : RStream) (k : ℕ) (e : Electron) :
    (resetElectron R k e).velocity = e.velocity := rfl

theorem resetAll_map_frameKept (R : RStream) :
    ∀ (es : List Electron) (k : ℕ), (resetAll R es k).map frameKept = es.map frameKept := by
  intro es
  induction es with
  | nil => intro k; rfl
  | cons e es ih => intro k; simp [resetAll, ih, resetElectron_frameKept]

theorem resetAll_map_velocity (R : RStream) :
    ∀ (es : List Electron) (k : ℕ),
      (resetAll R es k).map (fun e => e.velocity) = es.map (fun e => e.velocity) := by
  intro es
  induction es with
  | nil => intro k; rfl
  | cons e es ih => intro k; simp [resetAll, ih, resetElectron_velocity]

theorem resetElectron_ranges (R : RStream) (hR : StreamOK R) (k : ℕ) (e : Electron) :
    -2 ≤ (resetElectron R k e).position.x ∧ (resetElectron R k e).position.x < 2 ∧
    -(1/10) ≤ (resetElectron R k e).position.y ∧ (resetElectron R k e).position.y < 1/10 ∧
    -(1/5) ≤ (resetElectron R k e).position.z ∧ (resetElectron R k e).position.z < 1/5 := by
  obtain ⟨h0, h1⟩ := hR k
  obtain ⟨h2, h3⟩ := hR (k + 1)
  obtain ⟨h4, h5⟩ := hR (k + 2)
  refine ⟨?_, ?_, ?_, ?_, ?_, ?_⟩ <;> simp only [resetElectron] <;> nlinarith

theorem resetAll_mem_ranges (R : RStream) (hR : StreamOK R) :
    ∀ (es : List Electron) (k : ℕ), ∀ e₁ ∈ resetAll R es k,
      -2 ≤ e₁.position.x ∧ e₁.position.x < 2 ∧
      -(1/10) ≤ e₁.position.y ∧ e₁.position.y < 1/10 ∧
      -(1/5) ≤ e₁.position.z ∧ e₁.position.z < 1/5 := by
  intro es
  induction es with
  | nil => intro k e₁ h; simp [resetAll] at h
  | cons e es ih =>
    intro k e₁ h
    rcases List.mem_cons.1 h with h | h
    · rw [h]; exact resetElectron_ranges R hR k e
    · exact ih _ _ h

/-! ### Derived facts about one update call -/

theorem update_lastCurrentVal (s : SimState) (inp : CallInput) :
    (updateElectrons s inp).1.lastCurrentVal = sanitize inp.currentVal := by
  unfold updateElectrons
  rcases lt_or_le (1/10 : ℚ) (sanitize inp.currentVal) with h | h
  · rw [updateCore_flowing _ _ _ _ _ h]
  · rcases le_or_lt s.lastCurrentVal (1/10) with h₂ | h₂
    · rw [updateCore_frozen _ _ _ _ _ h h₂]
    · rw [updateCore_reset _ _ _ _ _ h h₂]

theorem update_didReset (s : SimState) (inp : CallInput) :
    (updateElectrons s inp).2.didReset
      = (decide (1/10 < s.lastCurrentVal) && decide (sanitize inp.currentVal ≤ 1/10)) := by
  unfold updateElectrons
  rcases lt_or_le (1/10 : ℚ) (sanitize inp.currentVal) with h | h
  · rw [updateCore_flowing _ _ _ _ _ h]
    simp only [decide_eq_false (not_le.2 h), Bool.and_false]
  · rcases le_or_lt s.lastCurrentVal (1/10) with h₂ | h₂
    · rw [updateCore_frozen _ _ _ _ _ h h₂]
      simp only [decide_eq_false (not_lt.2 h₂), Bool.false_and]
    · rw [updateCore_reset _ _ _ _ _ h h₂]
      simp only [decide_eq_true h₂, decide_eq_true h, Bool.and_self]

theorem update_length (s : SimState) (inp : CallInput) :
    (updateElectrons s inp).1.electrons.length = s.electrons.length := by
  unfold updateElectrons
  rcases lt_or_le (1/10 : ℚ) (sanitize inp.currentVal) with h | h
  · rw [updateCore_flowing _ _ _ _ _ h]
    exact flowAll_length _ _ _ _ _ _ _
  · rcases le_or_lt s.lastCurrentVal (1/10) with h₂ | h₂
    · rw [updateCore_frozen _ _ _ _ _ h h₂]
    · rw [updateCore_reset _ _ _ _ _ h h₂]
      exact resetAll_length _ _ _

theorem runUpdates_length (inps : List CallInput) :
    ∀ s : SimState, (runUpdates s inps).1.electrons.length = s.electrons.length := by
  induction inps with
  | nil => intro s; rfl
  | cons inp rest ih =>
    intro s
    show (runUpdates (updateElectrons s inp).1 rest).1.electrons.length = _
    rw [ih, update_length]


/-! ### Bounds of the flowing step -/

theorem zLimitOf_nonneg {mf : ℚ} (hmf : 0 ≤ mf) : 0 ≤ zLimitOf mf := by
  unfold zLimitOf; nlinarith

theorem flowStep_bounds (c mf dt r1 r2 r3 : ℚ) (accum : Bool) (e : Electron)
    (hc : 0 < c) (hmf : 0 ≤ mf) (hdt : 0 ≤ dt) (hx : e.position.x ≤ 5/2) :
    |(flowStepBound mf accum r2 r3 (flowStepPhys c mf dt r1 e)).position.x| ≤ 5/2 ∧
    |(flowStepBound mf accum r2 r3 (flowStepPhys c mf dt r1 e)).position.y| ≤ 1/5 ∧
    (if accum = true
     then |(flowStepBound mf accum r2 r3 (flowStepPhys c mf dt r1 e)).position.z| ≤ zLimitOf mf
     else |(flowStepBound mf accum r2 r3 (flowStepPhys c mf dt r1 e)).position.z| ≤ 2/5) := by
  have hx1 : (flowStepPhys c mf dt r1 e).position.x ≤ 5/2 := by
    rw [flowStepPhys_x]
    nlinarith
  refine ⟨?_, ?_, ?_⟩
  · by_cases hw : (flowStepPhys c mf dt r1 e).position.x < -(5/2)
    · simp only [flowStepBound, if_pos hw]
      rw [abs_of_nonneg (by norm_num : (0:ℚ) ≤ 5/2)]
    · simp only [flowStepBound, if_neg hw]
      rw [abs_le]
      exact ⟨le_of_not_lt hw, hx1⟩
  · simp only [flowStepBound]
    exact abs_clamp_le (by norm_num)
  · cases accum with
    | false =>
      simp only [flowStepBound, if_false, Bool.false_eq_true]
      exact abs_clamp_le (by norm_num)
    | true =>
      simp only [flowStepBound, if_true, Bool.true_eq_false]
      exact abs_clamp_le (zLimitOf_nonneg hmf)

theorem flowAll_bounds (c mf dt : ℚ) (accum : Bool) (R : RStream)
    (hc : 0 < c) (hmf : 0 ≤ mf) (hdt : 0 ≤ dt) :
    ∀ (es : List Electron) (k : ℕ),
      (∀ e ∈ es, e.position.x ≤ 5/2) →
      ∀ e₁ ∈ (flowAll c mf dt accum R es k).1,
        |e₁.position.x| ≤ 5/2 ∧ |e₁.position.y| ≤ 1/5 ∧
        (if accum = true then |e₁.position.z| ≤ zLimitOf mf else |e₁.position.z| ≤ 2/5) := by
  intro es
  induction es with
  | nil => intro k _ e₁ h; simp [flowAll] at h
  | cons e es ih =>
    intro k hx e₁ h
    by_cases hw : (flowStepPhys c mf dt (R k) e).position.x < -(5/2) <;>
      simp only [flowAll, hw, if_pos, if_neg, if_true, if_false, List.mem_cons] at h <;>
      rcases h with h | h
    · rw [h]
      exact flowStep_bounds c mf dt (R k) (R (k+1)) (R (k+2)) accum e hc hmf hdt
        (hx e (List.mem_cons_self e es))
    · exact ih _ (fun e₂ he₂ => hx e₂ (List.mem_cons_of_mem e he₂)) _ h
    · rw [h]
      exact flowStep_bounds c mf dt (R k) 0 0 accum e hc hmf hdt
        (hx e (List.mem_cons_self e es))
    · exact ih _ (fun e₂ he₂ => hx e₂ (List.mem_cons_of_mem e he₂)) _ h

/-! ### Preservation of the lateral coordinate at zero field -/

theorem flowAll_z_preserved (c dt : ℚ) (R : RStream) :
    ∀ (es : List Electron) (k i : ℕ),
      (flowAll c 0 dt false R es k).2.getD i false = false →
      |(es.getD i default).position.z| ≤ 2/5 →
      ((flowAll c 0 dt false R es k).1.getD i default).position.z
        = (es.getD i default).position.z := by
  intro es
  induction es with
  | nil => intro k i _ _; rfl
  | cons e es ih =>
    intro k i hflag hz
    by_cases hw : (flowStepPhys c 0 dt (R k) e).position.x < -(5/2)
    · simp only [flowAll, hw, if_pos, if_true] at hflag ⊢
      cases i with
      | zero => simp at hflag
      | succ i =>
        simp only [List.getD_cons_succ] at hflag hz ⊢
        exact ih _ _ hflag hz
    · simp only [flowAll, hw, if_neg, if_false] at hflag ⊢
      cases i with
      | zero =>
        simp only [List.getD_cons_zero] at hz ⊢
        show (flowStepBound 0 false 0 0 (flowStepPhys c 0 dt (R k) e)).position.z = _
        have hz1 : (flowStepPhys c 0 dt (R k) e).position.z = e.position.z :=
          flowStepPhys_z_of_zero_field c dt (R k) e
        simp only [flowStepBound, if_neg hw, Bool.false_eq_true, if_false, hz1]
        exact clamp_eq_self hz
      | succ i =>
        simp only [List.getD_cons_succ] at hflag hz ⊢
        exact ih _ _ hflag hz


theorem runUpdates_cons (s : SimState) (inp : CallInput) (inps : List CallInput) :
    runUpdates s (inp :: inps)
      = ((runUpdates (updateElectrons s inp).1 inps).1,
         (updateElectrons s inp).2 :: (runUpdates (updateElectrons s inp).1 inps).2) := rfl

theorem resetCount_cons (s : SimState) (inp : CallInput) (inps : List CallInput) :
    resetCount s (inp :: inps)
      = (if (updateElectrons s inp).2.didReset then 1 else 0)
        + resetCount (updateElectrons s inp).1 inps := by
  unfold resetCount
  rw [runUpdates_cons]
  by_cases hd : (updateElectrons s inp).2.didReset <;>
    simp [List.filter_cons, hd, Nat.add_comm]

theorem resetCount_eq_zero (inps : List CallInput) :
    ∀ s : SimState, s.lastCurrentVal ≤ 1/10 →
      (∀ j ∈ inps, sanitize j.currentVal ≤ 1/10) → resetCount s inps = 0 := by
  induction inps with
  | nil => intro s _ _; rfl
  | cons inp rest ih =>
    intro s hlast hall
    have hd : (updateElectrons s inp).2.didReset = false := by
      rw [update_didReset, decide_eq_false (not_lt.2 hlast), Bool.false_and]
    rw [resetCount_cons, hd]
    simp only [if_false, Bool.false_eq_true, Nat.zero_add]
    refine ih _ ?_ (fun j hj => hall j (List.mem_cons_of_mem _ hj))
    rw [update_lastCurrentVal]
    exact hall inp (List.mem_cons_self _ _)

/-- C1: if every particle is inside the simulation volume before the call and
the frame delta is nonnegative (as every caller guarantees) and the random
stream stays in `[0,1)`, then after `updateElectrons` every particle is inside
the declared bounds: drift axis within `[-2.5, 2.5]`, vertical axis within
`[-0.2, 0.2]`, and lateral axis within `[-0.4, 0.4]`, widened to
`[-(0.4 + (magneticField/100)*0.1), 0.4 + (magneticField/100)*0.1]` exactly
when accumulation (clamped field above 10 and clamped current above 1) is
active. -/
theorem C1_position_bounds (s : SimState) (inp : CallInput)
    (hdt : 0 ≤ inp.deltaTime) (hR : StreamOK inp.R)
    (hpre : ∀ e ∈ s.electrons, inVolume e) :
    ∀ e₁ ∈ (updateElectrons s inp).1.electrons,
      |e₁.position.x| ≤ 5/2 ∧ |e₁.position.y| ≤ 1/5 ∧
      (if accumActive (sanitize inp.magneticFieldVal) (sanitize inp.currentVal) = true
       then |e₁.position.z| ≤ zLimitOf (sanitize inp.magneticFieldVal)
       else |e₁.position.z| ≤ 2/5) := by
  intro e₁ h
  by_cases hc : sanitize inp.currentVal ≤ 1/10
  · have haccum : accumActive (sanitize inp.magneticFieldVal) (sanitize inp.currentVal)
        = false := by
      unfold accumActive
      rw [decide_eq_false (by linarith : ¬(1:ℚ) < sanitize inp.currentVal), Bool.and_false]
    rw [haccum]
    simp only [Bool.false_eq_true, if_false]
    unfold updateElectrons at h
    rcases le_or_lt s.lastCurrentVal (1/10) with hlast | hlast
    · rw [updateCore_frozen _ _ _ _ _ hc hlast] at h
      exact hpre e₁ h
    · rw [updateCore_reset _ _ _ _ _ hc hlast] at h
      obtain ⟨k1, k2, k3, k4, k5, k6⟩ := resetAll_mem_ranges _ hR _ _ e₁ h
      refine ⟨abs_le.2 ⟨by linarith, by linarith⟩,
        abs_le.2 ⟨by linarith, by linarith⟩, abs_le.2 ⟨by linarith, by linarith⟩⟩
  · unfold updateElectrons at h
    rw [updateCore_flowing _ _ _ _ _ (not_le.1 hc)] at h
    exact flowAll_bounds _ _ _ _ _ (by linarith [not_le.1 hc]) (sanitize_nonneg _)
      (le_min hdt (by norm_num)) _ _
      (fun e he => (abs_le.1 (hpre e he).1).2) e₁ h

/-- C3: in a frozen-mode call with no freeze edge (clamped current at or
below 0.1 and previous clamped current also at or below 0.1) the electron
list — every position and velocity — is exactly unchanged, movement
enablement is unchanged, and the reset side effect does not fire; only
cosmetic rendering state is touched by that source branch. -/
theorem C3_frozen_frame_unchanged (s : SimState) (inp : CallInput)
    (hc : sanitize inp.currentVal ≤ 1/10) (hlast : s.lastCurrentVal ≤ 1/10) :
    (updateElectrons s inp).1.electrons = s.electrons ∧
    (updateElectrons s inp).1.movementEnabled = s.movementEnabled ∧
    (updateElectrons s inp).2.didReset = false := by
  unfold updateElectrons
  rw [updateCore_frozen _ _ _ _ _ hc hlast]
  exact ⟨rfl, rfl, rfl⟩

/-- C4: the freeze redistribution fires in a call if and only if the stored
previous clamped current exceeds 0.1 while the new clamped current is at or
below 0.1; consequently a run whose clamped currents all stay at or below
0.1 fires it at most once. -/
theorem C4_reset_exactly_on_edge (s : SimState) (inp : CallInput) :
    ((updateElectrons s inp).2.didReset = true ↔
      (1/10 < s.lastCurrentVal ∧ sanitize inp.currentVal ≤ 1/10)) ∧
    (∀ inps : List CallInput,
      (∀ j ∈ inp :: inps, sanitize j.currentVal ≤ 1/10) →
      resetCount s (inp :: inps) ≤ 1) := by
  constructor
  · rw [update_didReset]
    simp only [Bool.and_eq_true, decide_eq_true_eq]
  · intro inps hall
    rw [resetCount_cons]
    have h0 : resetCount (updateElectrons s inp).1 inps = 0 := by
      refine resetCount_eq_zero inps _ ?_ (fun j hj => hall j (List.mem_cons_of_mem _ hj))
      rw [update_lastCurrentVal]
      exact hall inp (List.mem_cons_self _ _)
    rw [h0]
    by_cases hd : (updateElectrons s inp).2.didReset <;> simp [hd]

/-- C5: calling the update with `current = NaN` or with any negative current
is exactly the same as calling it with `current = 0` (the guard
`Math.max(0, currentVal || 0)` coerces the value at entry before any other
processing), and — the source containing no throw — the call returns
normally. -/
theorem C5_invalid_current_as_zero (s : SimState) (dtq tq : ℚ) (mfv : JSNum) (R : RStream) :
    updateElectrons s ⟨dtq, .nan, mfv, tq, R⟩ = updateElectrons s ⟨dtq, .num 0, mfv, tq, R⟩ ∧
    (∀ q : ℚ, q < 0 →
      updateElectrons s ⟨dtq, .num q, mfv, tq, R⟩
        = updateElectrons s ⟨dtq, .num 0, mfv, tq, R⟩) ∧
    (updateElectronsRun s ⟨dtq, .nan, mfv, tq, R⟩).isOk = true := by
  refine ⟨?_, ?_, rfl⟩
  · show updateCore s dtq (sanitize .nan) (sanitize mfv) R
        = updateCore s dtq (sanitize (.num 0)) (sanitize mfv) R
    rw [show sanitize JSNum.nan = 0 from rfl, sanitize_of_nonpos le_rfl]
  · intro q hq
    show updateCore s dtq (sanitize (.num q)) (sanitize mfv) R
        = updateCore s dtq (sanitize (.num 0)) (sanitize mfv) R
    rw [sanitize_of_nonpos hq.le, sanitize_of_nonpos le_rfl]

/-- C7: in every flowing-mode call (clamped current above 0.1, nonnegative
frame delta), every electron's drift velocity is set to
`-(0.5 * current / 5)`; the physics phase advances the drift position by
exactly `velocity.x * min(deltaTime, 0.033) * 1.5` before boundary
correction; and the magnitude of that pre-boundary advance is bounded by
`(0.5 * current / 5) * 0.033 * 1.5` no matter how large `deltaTime` is. -/
theorem C7_drift_kinematics (s : SimState) (inp : CallInput)
    (hc : 1/10 < sanitize inp.currentVal) (hdt : 0 ≤ inp.deltaTime) :
    (∀ e₁ ∈ (updateElectrons s inp).1.electrons,
        e₁.velocity.x = -((1/2) * (sanitize inp.currentVal / 5))) ∧
    (∀ (r1 : ℚ) (e : Electron),
        (flowStepPhys (sanitize inp.currentVal) (sanitize inp.magneticFieldVal)
            (min inp.deltaTime (33/1000)) r1 e).position.x
          = e.position.x
            + -((1/2) * (sanitize inp.currentVal / 5)) * min inp.deltaTime (33/1000) * (3/2)) ∧
    (∀ (r1 : ℚ) (e : Electron),
        |(flowStepPhys (sanitize inp.currentVal) (sanitize inp.magneticFieldVal)
            (min inp.deltaTime (33/1000)) r1 e).position.x - e.position.x|
          ≤ (1/2) * (sanitize inp.currentVal / 5) * (33/1000) * (3/2)) := by
  have hdm0 : 0 ≤ min inp.deltaTime (33/1000) := le_min hdt (by norm_num)
  have hdm : min inp.deltaTime (33/1000) ≤ 33/1000 := min_le_right _ _
  have hb : 0 < (1/2) * (sanitize inp.currentVal / 5) := by linarith
  refine ⟨?_, fun r1 e => flowStepPhys_x _ _ _ _ _, ?_⟩
  · intro e₁ h
    unfold updateElectrons at h
    rw [updateCore_flowing _ _ _ _ _ hc] at h
    exact flowAll_velocity_x _ _ _ _ _ _ _ e₁ h
  · intro r1 e
    rw [flowStepPhys_x]
    have heq : e.position.x
          + -((1/2) * (sanitize inp.currentVal / 5)) * min inp.deltaTime (33/1000) * (3/2)
          - e.position.x
        = -((1/2) * (sanitize inp.currentVal / 5) * min inp.deltaTime (33/1000) * (3/2)) := by
      ring
    rw [heq, abs_neg, abs_of_nonneg (by nlinarith)]
    nlinarith

/-- C10: one update call never modifies `id`, `initialPosition`, or the
vertical and lateral velocity components of any electron: the projection of
the electron list onto those fields is exactly preserved. In particular the
non-drift velocity components stay zero once zero, and deflection and
jitter act on position only. -/
theorem C10_frame_fields_preserved (s : SimState) (inp : CallInput) :
    (updateElectrons s inp).1.electrons.map frameKept = s.electrons.map frameKept := by
  unfold updateElectrons
  rcases lt_or_le (1/10 : ℚ) (sanitize inp.currentVal) with h | h
  · rw [updateCore_flowing _ _ _ _ _ h]
    exact flowAll_map_frameKept _ _ _ _ _ _ _
  · rcases le_or_lt s.lastCurrentVal (1/10) with h₂ | h₂
    · rw [updateCore_frozen _ _ _ _ _ h h₂]
    · rw [updateCore_reset _ _ _ _ _ h h₂]
      exact resetAll_map_frameKept _ _ _

/-- C2 (amended): on a freeze edge the positions are redistributed uniformly
at random within the redistribution volume and movement is disabled, but the
velocities are left exactly as they were — they are not zeroed. -/
theorem C2_freeze_edge_effects (s : SimState) (inp : CallInput)
    (hlast : 1/10 < s.lastCurrentVal) (hc : sanitize inp.currentVal ≤ 1/10)
    (hR : StreamOK inp.R) :
    (updateElectrons s inp).2.didReset = true ∧
    (updateElectrons s inp).1.movementEnabled = false ∧
    (updateElectrons s inp).1.electrons.map (fun e => e.velocity)
      = s.electrons.map (fun e => e.velocity) ∧
    ∀ e₁ ∈ (updateElectrons s inp).1.electrons,
      -2 ≤ e₁.position.x ∧ e₁.position.x < 2 ∧
      -(1/10) ≤ e₁.position.y ∧ e₁.position.y < 1/10 ∧
      -(1/5) ≤ e₁.position.z ∧ e₁.position.z < 1/5 := by
  unfold updateElectrons
  rw [updateCore_reset _ _ _ _ _ hc hlast]
  exact ⟨rfl, rfl, resetAll_map_velocity _ _ _, resetAll_mem_ranges _ hR _ _⟩

theorem update_z_preserved (s : SimState) (inp : CallInput) (i : ℕ)
    (hmf : sanitize inp.magneticFieldVal = 0) (hcv : 1/10 < sanitize inp.currentVal)
    (hw : (updateElectrons s inp).2.wrapped.getD i false = false)
    (hz : |(s.electrons.getD i default).position.z| ≤ 2/5) :
    ((updateElectrons s inp).1.electrons.getD i default).position.z
      = (s.electrons.getD i default).position.z := by
  unfold updateElectrons at hw ⊢
  rw [updateCore_flowing _ _ _ _ _ hcv] at hw ⊢
  rw [hmf] at hw ⊢
  have haccum : accumActive 0 (sanitize inp.currentVal) = false := by
    unfold accumActive
    rw [decide_eq_false (by norm_num : ¬(10:ℚ) < 0), Bool.false_and]
  rw [haccum] at hw ⊢
  exact flowAll_z_preserved _ _ _ _ _ _ hw hz

/-- C6 (amended): with clamped magnetic field 0 and clamped current 5 on
every frame, the lateral (z) coordinate of a particle that starts within the
lateral clamp range equals its starting value after any number of update
calls in which that particle never wraps across the left drift boundary: at
zero field the deflection step contributes nothing, and only the wrap
resample can change z. -/
theorem C6_lateral_unchanged_until_wrap (inps : List CallInput) :
    ∀ (s : SimState) (i : ℕ),
      (∀ j ∈ inps, sanitize j.magneticFieldVal = 0) →
      (∀ j ∈ inps, sanitize j.currentVal = 5) →
      |(s.electrons.getD i default).position.z| ≤ 2/5 →
      (∀ t ∈ (runUpdates s inps).2, t.wrapped.getD i false = false) →
      ((runUpdates s inps).1.electrons.getD i default).position.z
        = (s.electrons.getD i default).position.z := by
  induction inps with
  | nil => intro s i _ _ _ _; rfl
  | cons inp rest ih =>
    intro s i hmf hcv hz hw
    have hmf0 : sanitize inp.magneticFieldVal = 0 := hmf inp (List.mem_cons_self _ _)
    have hc : 1/10 < sanitize inp.currentVal := by
      rw [hcv inp (List.mem_cons_self _ _)]; norm_num
    have hrun : runUpdates s (inp :: rest)
        = ((runUpdates (updateElectrons s inp).1 rest).1,
           (updateElectrons s inp).2 :: (runUpdates (updateElectrons s inp).1 rest).2) := rfl
    have hw0 : (updateElectrons s inp).2.wrapped.getD i false = false := by
      refine hw _ ?_
      rw [hrun]
      exact List.mem_cons_self _ _
    have hstep := update_z_preserved s inp i hmf0 hc hw0 hz
    have hz1 : |((updateElectrons s inp).1.electrons.getD i default).position.z| ≤ 2/5 := by
      rw [hstep]; exact hz
    have htail := ih (updateElectrons s inp).1 i
      (fun j hj => hmf j (List.mem_cons_of_mem _ hj))
      (fun j hj => hcv j (List.mem_cons_of_mem _ hj)) hz1
      (fun t ht => hw t (by rw [hrun]; exact List.mem_cons_of_mem _ ht))
    rw [hrun]
    exact htail.trans hstep

/-- C8 (amended): `initializeElectrons` discards the prior batch and returns
exactly `n` electrons with positions sampled uniformly in
`[-2,2) × [-0.1,0.1) × [-0.2,0.2)`, `initialPosition` equal to `position`,
and every velocity equal to the constant base drift velocity `(-0.5, 0, 0)`
— not zero; and the batch size stays exactly `n` across any number of
subsequent update calls. -/
theorem C8_initialize_and_count (s : SimState) (n : ℕ) (R : RStream) (hR : StreamOK R)
    (inps : List CallInput) :
    (initializeElectrons s n R).electrons.length = n ∧
    (∀ e ∈ (initializeElectrons s n R).electrons,
        e.velocity = ⟨-(1/2), 0, 0⟩ ∧ e.initialPosition = e.position ∧
        -2 ≤ e.position.x ∧ e.position.x < 2 ∧
        -(1/10) ≤ e.position.y ∧ e.position.y < 1/10 ∧
        -(1/5) ≤ e.position.z ∧ e.position.z < 1/5) ∧
    (runUpdates (initializeElectrons s n R) inps).1.electrons.length = n := by
  have hlen : (initializeElectrons s n R).electrons.length = n := by
    simp [initializeElectrons]
  refine ⟨hlen, ?_, by rw [runUpdates_length, hlen]⟩
  intro e he
  simp only [initializeElectrons, List.mem_map, List.mem_range] at he
  obtain ⟨i, hi, rfl⟩ := he
  obtain ⟨h0, h1⟩ := hR (3*i)
  obtain ⟨h2, h3⟩ := hR (3*i+1)
  obtain ⟨h4, h5⟩ := hR (3*i+2)
  refine ⟨rfl, rfl, ?_, ?_, ?_, ?_, ?_, ?_⟩ <;> simp only [initElectron] <;> nlinarith

/-- C9 (amended): lifecycle misuse is silently tolerated, not a loud
failure: updating before any initialization iterates over zero electrons and
returns normally leaving the batch empty, and a second dispose finds every
resource field already null and returns normally, leaving the state exactly
as after the first dispose. -/
theorem C9_misuse_is_silent (s : SimState) (inp : CallInput) (hs : s.electrons = []) :
    (updateElectronsRun s inp).isOk = true ∧
    (updateElectrons s inp).1.electrons = [] ∧
    disposeRun (dispose s) = Except.ok (dispose s) ∧
    dispose (dispose s) = dispose s := by
  refine ⟨rfl, ?_, rfl, rfl⟩
  have h := update_length s inp
  rw [hs] at h
  exact List.length_eq_zero.1 h


/-- C2 (counterexample): initialize one electron, run one flowing frame at
current 5, then one frame at current 0. The freeze edge fires (positions are
redistributed), yet the electron's velocity after the freezing call is the
nonzero `(-0.5, 0, 0)` — velocities are not set to zero. -/
theorem C2_counterexample :
    (updateElectrons sFlow callFreeze).2.didReset = true ∧
    (updateElectrons sFlow callFreeze).1.electrons.map (fun e => e.velocity)
      = [⟨-(1/2), 0, 0⟩] ∧
    (Vec3.mk (-(1/2)) 0 0 ≠ Vec3.zero) := by
  refine ⟨?_, ?_, by norm_num [Vec3.zero, Vec3.mk.injEq]⟩ <;>
    norm_num [sFlow, sInit1, callFlow, callFreeze, streamHalf, initializeElectrons,
      initElectron, freshSim, updateElectrons, updateCore, sanitize, flowAll, flowStepPhys,
      flowStepBound, accumActive, zLimitOf, clamp, resetAll, resetElectron, Vec3.cross,
      Vec3.smul, List.range_succ]

set_option maxRecDepth 8000 in
/-- C6 (counterexample): one electron starting at `(-2, 0, 0)`, 21 frames at
current 5 and field 0 with delta 0.033. On frame 21 the electron crosses
`x = -2.5` and wraps, and the wrap resamples its lateral coordinate to
`-0.2`, which differs from its initialization value `0`. -/
theorem C6_counterexample :
    (runUpdates c6Init (List.replicate 21 c6Call)).1.electrons.map
      (fun e => (e.position.z, e.initialPosition.z)) = [(-(1/5), 0)] ∧
    ((-(1/5) : ℚ) ≠ 0) := by
  constructor
  · norm_num [c6Init, c6InitStream, c6Call, initializeElectrons, initElectron, freshSim,
      runUpdates, updateElectrons, updateCore, sanitize, flowAll, flowStepPhys, flowStepBound,
      accumActive, zLimitOf, clamp, resetAll, resetElectron, Vec3.cross, Vec3.smul,
      List.range_succ, List.replicate]
  · norm_num

/-- C8 (counterexample): the batch returned by `initializeElectrons` has
velocity `(-0.5, 0, 0)` on every electron, not the zero velocity the claim
asserts. -/
theorem C8_counterexample :
    (initializeElectrons freshSim 1 streamHalf).electrons.map (fun e => e.velocity)
      = [⟨-(1/2), 0, 0⟩] ∧
    (Vec3.mk (-(1/2)) 0 0 ≠ Vec3.zero) := by
  refine ⟨?_, by norm_num [Vec3.zero, Vec3.mk.injEq]⟩
  norm_num [initializeElectrons, initElectron, freshSim, streamHalf, List.range_succ]

/-- C9 (counterexample): calling the update on a never-initialized simulation
returns normally (`.ok`) with the batch still empty, and disposing an
already-disposed simulation returns normally and changes nothing — neither
misuse raises a precondition violation. -/
theorem C9_counterexample :
    (updateElectronsRun freshSim callFlow).isOk = true ∧
    (updateElectrons freshSim callFlow).1.electrons = [] ∧
    disposeRun (dispose sInit1) = Except.ok (dispose sInit1) ∧
    dispose (dispose sInit1) = dispose sInit1 := by
  refine ⟨rfl, ?_, rfl, rfl⟩
  have h := update_length freshSim callFlow
  rw [show freshSim.electrons = [] from rfl] at h
  exact List.length_eq_zero.1 h

theorem C1_witness :
    (0 ≤ callFlow.deltaTime) ∧ StreamOK callFlow.R ∧
    (∀ e ∈ sInit1.electrons, inVolume e) ∧
    (∀ e₁ ∈ (updateElectrons sInit1 callFlow).1.electrons,
      |e₁.position.x| ≤ 5/2 ∧ |e₁.position.y| ≤ 1/5 ∧
      (if accumActive (sanitize callFlow.magneticFieldVal) (sanitize callFlow.currentVal) = true
       then |e₁.position.z| ≤ zLimitOf (sanitize callFlow.magneticFieldVal)
       else |e₁.position.z| ≤ 2/5)) := by
  have h1 : (0:ℚ) ≤ callFlow.deltaTime := by norm_num [callFlow]
  have h2 : StreamOK callFlow.R := streamHalf_ok
  have h3 : ∀ e ∈ sInit1.electrons, inVolume e := by
    intro e he
    norm_num [sInit1, initializeElectrons, initElectron, freshSim, streamHalf,
      List.range_succ] at he
    rw [he]
    norm_num [inVolume]
  exact ⟨h1, h2, h3, C1_position_bounds sInit1 callFlow h1 h2 h3⟩

theorem C2_witness :
    (1/10 < sFlow.lastCurrentVal) ∧ (sanitize callFreeze.currentVal ≤ 1/10) ∧
    StreamOK callFreeze.R ∧
    ((updateElectrons sFlow callFreeze).2.didReset = true ∧
     (updateElectrons sFlow callFreeze).1.movementEnabled = false ∧
     (updateElectrons sFlow callFreeze).1.electrons.map (fun e => e.velocity)
       = sFlow.electrons.map (fun e => e.velocity) ∧
     ∀ e₁ ∈ (updateElectrons sFlow callFreeze).1.electrons,
       -2 ≤ e₁.position.x ∧ e₁.position.x < 2 ∧
       -(1/10) ≤ e₁.position.y ∧ e₁.position.y < 1/10 ∧
       -(1/5) ≤ e₁.position.z ∧ e₁.position.z < 1/5) := by
  have hlast : (1:ℚ)/10 < sFlow.lastCurrentVal := by
    have h := update_lastCurrentVal sInit1 callFlow
    unfold sFlow
    rw [h]
    norm_num [callFlow, sanitize]
  have hc : sanitize callFreeze.currentVal ≤ 1/10 := by norm_num [callFreeze, sanitize]
  have hR : StreamOK callFreeze.R := streamHalf_ok
  exact ⟨hlast, hc, hR, C2_freeze_edge_effects sFlow callFreeze hlast hc hR⟩

theorem C3_witness :
    (sanitize callFreeze.currentVal ≤ 1/10) ∧ (sInit1.lastCurrentVal ≤ 1/10) ∧
    ((updateElectrons sInit1 callFreeze).1.electrons = sInit1.electrons ∧
     (updateElectrons sInit1 callFreeze).1.movementEnabled = sInit1.movementEnabled ∧
     (updateElectrons sInit1 callFreeze).2.didReset = false) := by
  have hc : sanitize callFreeze.currentVal ≤ 1/10 := by norm_num [callFreeze, sanitize]
  have hlast : sInit1.lastCurrentVal ≤ 1/10 := by
    norm_num [sInit1, initializeElectrons, freshSim]
  exact ⟨hc, hlast, C3_frozen_frame_unchanged sInit1 callFreeze hc hlast⟩

theorem C4_witness :
    ((updateElectrons sInit1 callFreeze).2.didReset = true ↔
      (1/10 < sInit1.lastCurrentVal ∧ sanitize callFreeze.currentVal ≤ 1/10)) ∧
    (∀ j ∈ callFreeze :: [callFreeze], sanitize j.currentVal ≤ 1/10) ∧
    resetCount sInit1 (callFreeze :: [callFreeze]) ≤ 1 := by
  have hall : ∀ j ∈ callFreeze :: [callFreeze], sanitize j.currentVal ≤ 1/10 := by
    intro j hj
    rcases List.mem_cons.1 hj with h | h
    · rw [h]; norm_num [callFreeze, sanitize]
    · rw [List.mem_singleton.1 h]; norm_num [callFreeze, sanitize]
  exact ⟨(C4_reset_exactly_on_edge sInit1 callFreeze).1, hall,
    (C4_reset_exactly_on_edge sInit1 callFreeze).2 [callFreeze] hall⟩

theorem C5_witness :
    (updateElectrons freshSim ⟨1/50, .nan, .num 20, 0, streamHalf⟩
      = updateElectrons freshSim ⟨1/50, .num 0, .num 20, 0, streamHalf⟩) ∧
    ((-5 : ℚ) < 0) ∧
    (updateElectrons freshSim ⟨1/50, .num (-5), .num 20, 0, streamHalf⟩
      = updateElectrons freshSim ⟨1/50, .num 0, .num 20, 0, streamHalf⟩) ∧
    (updateElectronsRun freshSim ⟨1/50, .nan, .num 20, 0, streamHalf⟩).isOk = true := by
  refine ⟨(C5_invalid_current_as_zero freshSim (1/50) 0 (.num 20) streamHalf).1,
    by norm_num,
    (C5_invalid_current_as_zero freshSim (1/50) 0 (.num 20) streamHalf).2.1 (-5) (by norm_num),
    (C5_invalid_current_as_zero freshSim (1/50) 0 (.num 20) streamHalf).2.2⟩

theorem C6_witness :
    (∀ j ∈ [c6Call], sanitize j.magneticFieldVal = 0) ∧
    (∀ j ∈ [c6Call], sanitize j.currentVal = 5) ∧
    (|(c6Init.electrons.getD 0 default).position.z| ≤ 2/5) ∧
    (∀ t ∈ (runUpdates c6Init [c6Call]).2, t.wrapped.getD 0 false = false) ∧
    ((runUpdates c6Init [c6Call]).1.electrons.getD 0 default).position.z
      = (c6Init.electrons.getD 0 default).position.z := by
  have hmf : ∀ j ∈ [c6Call], sanitize j.magneticFieldVal = 0 := by
    intro j hj
    rw [List.mem_singleton.1 hj]
    norm_num [c6Call, sanitize]
  have hcv : ∀ j ∈ [c6Call], sanitize j.currentVal = 5 := by
    intro j hj
    rw [List.mem_singleton.1 hj]
    norm_num [c6Call, sanitize]
  have hz : |(c6Init.electrons.getD 0 default).position.z| ≤ 2/5 := by
    norm_num [c6Init, c6InitStream, initializeElectrons, initElectron, freshSim,
      List.range_succ]
  have hw : ∀ t ∈ (runUpdates c6Init [c6Call]).2, t.wrapped.getD 0 false = false := by
    intro t ht
    norm_num [c6Init, c6InitStream, c6Call, initializeElectrons, initElectron, freshSim,
      runUpdates, updateElectrons, updateCore, sanitize, flowAll, flowStepPhys, flowStepBound,
      accumActive, zLimitOf, clamp, Vec3.cross, Vec3.smul, List.range_succ] at ht
    rw [ht]
    rfl
  exact ⟨hmf, hcv, hz, hw, C6_lateral_unchanged_until_wrap [c6Call] c6Init 0 hmf hcv hz hw⟩

theorem C7_witness :
    (1/10 < sanitize callFlow.currentVal) ∧ (0 ≤ callFlow.deltaTime) ∧
    ((∀ e₁ ∈ (updateElectrons sInit1 callFlow).1.electrons,
        e₁.velocity.x = -((1/2) * (sanitize callFlow.currentVal / 5))) ∧
     (∀ (r1 : ℚ) (e : Electron),
        (flowStepPhys (sanitize callFlow.currentVal) (sanitize callFlow.magneticFieldVal)
            (min callFlow.deltaTime (33/1000)) r1 e).position.x
          = e.position.x
            + -((1/2) * (sanitize callFlow.currentVal / 5))
              * min callFlow.deltaTime (33/1000) * (3/2)) ∧
     (∀ (r1 : ℚ) (e : Electron),
        |(flowStepPhys (sanitize callFlow.currentVal) (sanitize callFlow.magneticFieldVal)
            (min callFlow.deltaTime (33/1000)) r1 e).position.x - e.position.x|
          ≤ (1/2) * (sanitize callFlow.currentVal / 5) * (33/1000) * (3/2))) := by
  have hc : (1:ℚ)/10 < sanitize callFlow.currentVal := by norm_num [callFlow, sanitize]
  have hdt : (0:ℚ) ≤ callFlow.deltaTime := by norm_num [callFlow]
  exact ⟨hc, hdt, C7_drift_kinematics sInit1 callFlow hc hdt⟩

theorem C8_witness :
    StreamOK streamHalf ∧
    ((initializeElectrons freshSim 2 streamHalf).electrons.length = 2 ∧
     (∀ e ∈ (initializeElectrons freshSim 2 streamHalf).electrons,
        e.velocity = ⟨-(1/2), 0, 0⟩ ∧ e.initialPosition = e.position ∧
        -2 ≤ e.position.x ∧ e.position.x < 2 ∧
        -(1/10) ≤ e.position.y ∧ e.position.y < 1/10 ∧
        -(1/5) ≤ e.position.z ∧ e.position.z < 1/5) ∧
     (runUpdates (initializeElectrons freshSim 2 streamHalf) [callFlow]).1.electrons.length
       = 2) :=
  ⟨streamHalf_ok, C8_initialize_and_count freshSim 2 streamHalf streamHalf_ok [callFlow]⟩

theorem C9_witness :
    ((dispose sInit1).electrons = []) ∧
    ((updateElectronsRun (dispose sInit1) callFreeze).isOk = true ∧
     (updateElectrons (dispose sInit1) callFreeze).1.electrons = [] ∧
     disposeRun (dispose (dispose sInit1)) = Except.ok (dispose (dispose sInit1)) ∧
     dispose (dispose (dispose sInit1)) = dispose (dispose sInit1)) :=
  ⟨rfl, C9_misuse_is_silent (dispose sInit1) callFreeze rfl⟩

end HallSim
